import Mathlib

/-!
Shallow embedding of the claude-skill-manager core (trigger.js, similarity.js,
usage-tracker.js) and proofs about it.

Modelling conventions:
- JavaScript strings are Lean `String`s; `str.split(c)` for a one-character
  separator is embedded as a structural split over the character list.
- JavaScript numbers appearing as similarity scores are embedded as exact
  rationals (`ℚ`); at the magnitudes produced by the similarity engine
  (ratios of token-set cardinalities bounded by name length) double-precision
  comparison against the literals 0.30 / 0.40 agrees with exact rational
  comparison, so the embedding is faithful.
- A JavaScript `Set` built from a list preserves membership and cardinality
  of the underlying deduplicated list; the code only consumes membership and
  size, so `List.dedup` (which also removes duplicates) is observationally
  equivalent.
- Filesystem effects are embedded as explicit state passing over a small
  filesystem model; fallible operations return `Except`.
- Timestamps (`new Date().toISOString()`, `Date.now()`) and the process id
  are passed in as explicit parameters.
-/

-- =============================================================================
-- Generic string helpers (embedding of JS String.prototype methods)
-- =============================================================================

/-- Embedding of JS `str.split(sep)` for a single-character separator,
working on the character list. `"".split('-')` is `[""]`, matching JS. -/
def splitOnChar (sep : Char) : List Char → List (List Char)
  | [] => [[]]
  | c :: rest =>
    let r := splitOnChar sep rest
    if c = sep then
      [] :: r
    else
      match r with
      | t :: ts => (c :: t) :: ts
      | [] => [[c]]

/-- Embedding of JS `name.split('-')` producing strings. -/
def splitTokens (s : String) : List String :=
  (splitOnChar '-' s.data).map (fun cs => String.mk cs)

/-- Does `hs` start with `ns`? (helper for substring search). -/
def startsWithChars : List Char → List Char → Bool
  | _, [] => true
  | [], _ :: _ => false
  | h :: hs, n :: ns => h = n && startsWithChars hs ns

/-- Embedding of JS `haystack.includes(needle)`: substring containment. -/
def containsChars : List Char → List Char → Bool
  | [], ns => startsWithChars [] ns
  | h :: hs, ns => startsWithChars (h :: hs) ns || containsChars hs ns

/-- Embedding of JS `haystack.includes(needle)` on strings. -/
def stringContains (haystack needle : String) : Bool :=
  containsChars haystack.data needle.data

-- =============================================================================
-- Similarity engine (similarity.js)
-- =============================================================================

/-- Embedding of `jaccardSimilarity(name1, name2)` from similarity.js:
tokenize both names on `'-'`, dedup into sets, and return
`|intersection| / |union|` as an exact rational. -/
def jaccardSimilarity (name1 name2 : String) : ℚ :=
  let tokens1 := (splitTokens name1).dedup
  let tokens2 := (splitTokens name2).dedup
  let intersection := tokens1.filter (fun t => t ∈ tokens2)
  let union := (tokens1 ++ tokens2).dedup
  (intersection.length : ℚ) / (union.length : ℚ)

/-- Loop of `prefixTokenCount`: count leading positions where the token
sequences agree, stopping at the first mismatch. -/
def prefixTokenCountAux : List String → List String → Nat
  | a :: as, b :: bs => if a = b then prefixTokenCountAux as bs + 1 else 0
  | _, _ => 0

/-- Embedding of `prefixTokenCount(name1, name2)` from similarity.js. -/
def prefixTokenCount (name1 name2 : String) : Nat :=
  prefixTokenCountAux (splitTokens name1) (splitTokens name2)

/-- A similarity match record `{ name, jaccard, prefix }` as pushed by the
finders (the `prefix` field is named `prefixLen` here). -/
structure SimilarityMatch where
  name : String
  jaccard : ℚ
  prefixLen : Nat
deriving DecidableEq

/-- Embedding of `findSimilarSkillsWide` (Hybrid 4):
keep candidates with `jaccard >= 0.40 || (jaccard >= 0.30 && prefix >= 3)`,
sorted by Jaccard descending. -/
def findSimilarSkillsWide (proposedName : String) (existingNames : List String) :
    List SimilarityMatch :=
  let found := existingNames.filterMap (fun name =>
    let jaccard := jaccardSimilarity proposedName name
    let p := prefixTokenCount proposedName name
    if jaccard ≥ 0.40 ∨ (jaccard ≥ 0.30 ∧ p ≥ 3) then
      some ⟨name, jaccard, p⟩
    else
      none)
  found.mergeSort (fun a b => decide (b.jaccard ≤ a.jaccard))

/-- Embedding of `findSimilarSkillsStrict` (Hybrid 2):
keep candidates with `jaccard >= 0.30 && prefix >= 3`,
sorted by Jaccard descending. -/
def findSimilarSkillsStrict (proposedName : String) (existingNames : List String) :
    List SimilarityMatch :=
  let found := existingNames.filterMap (fun name =>
    let jaccard := jaccardSimilarity proposedName name
    let p := prefixTokenCount proposedName name
    if jaccard ≥ 0.30 ∧ p ≥ 3 then
      some ⟨name, jaccard, p⟩
    else
      none)
  found.mergeSort (fun a b => decide (b.jaccard ≤ a.jaccard))

-- =============================================================================
-- Preprocessor truncation (trigger.js: truncateText, processContentItem)
-- =============================================================================

/-- Embedding of JS `lines.slice(-k)`.  `-0` is `0` in JS, so `slice(-0)`
returns the whole array; for `k ≥ 1` it returns the last `min(k, length)`
elements, which `drop (length - k)` computes. -/
def sliceFromEnd {α : Type} (l : List α) (k : Nat) : List α :=
  if k = 0 then l else l.drop (l.length - k)

/-- Embedding of `truncateText(text, truncateLines)` from trigger.js, at the
level of the line list produced by `text.split('\n')` (joining back with
`'\n'` is the inverse of that split, so the line list determines the text).
If the text has more than `truncateLines * 2` lines: keep the first
`truncateLines` lines, an empty line, a marker naming the number of elided
lines, an empty line, and `lines.slice(-truncateLines)`. -/
def truncateText (lines : List String) (truncateLines : Nat) : List String :=
  let threshold := truncateLines * 2
  if lines.length ≤ threshold then
    lines
  else
    let truncatedCount := lines.length - threshold
    let firstLines := lines.take truncateLines
    let lastLines := sliceFromEnd lines truncateLines
    let marker := "... [truncated " ++ Nat.repr truncatedCount ++ " lines] ..."
    firstLines ++ "" :: marker :: "" :: lastLines

/-- A part of an array-valued `message.content` entry: either a
`{ type: "text", text: ... }` part (text kept as its line list) or any
other part, which `processContentItem` returns unchanged. -/
inductive MessagePart where
  | textPart (lines : List String)
  | otherPart
deriving DecidableEq

/-- The `content` field of a content item: a string (as its line list), an
array of parts, or anything else. -/
inductive ItemContent where
  | stringContent (lines : List String)
  | arrayContent (parts : List MessagePart)
  | otherContent
deriving DecidableEq

/-- A `message.content` array element: its `type` tag and its content. -/
structure ContentItem where
  itype : String
  content : ItemContent
deriving DecidableEq

/-- Embedding of `processContentItem(item, truncateLines)` from trigger.js:
items whose type is not `"tool_result"` pass through unchanged; string
content is truncated with `truncateText`; in array content every
`{ type: "text" }` part has its text truncated and other parts pass
through. -/
def processContentItem (item : ContentItem) (truncateLines : Nat) : ContentItem :=
  if item.itype ≠ "tool_result" then
    item
  else
    match item.content with
    | .stringContent lines =>
        { item with content := .stringContent (truncateText lines truncateLines) }
    | .arrayContent parts =>
        { item with content := .arrayContent (parts.map (fun part =>
            match part with
            | .textPart lines => .textPart (truncateText lines truncateLines)
            | .otherPart => .otherPart)) }
    | .otherContent => item

/-- Embedding of the temporary-file name built by `preprocessTranscript`:
`preprocessed-transcript-${Date.now()}-${process.pid}.jsonl`, with the
millisecond clock value and the process id passed explicitly.  The source
interpolates no other component (in particular no random component). -/
def preprocessedTmpName (nowMs : Nat) (pid : Nat) : String :=
  "preprocessed-transcript-" ++ Nat.repr nowMs ++ "-" ++ Nat.repr pid ++ ".jsonl"

-- =============================================================================
-- State store (trigger.js: markTranscript*)
-- =============================================================================

/-- A transcript record inside the state file.  JS objects with optional
fields are embedded as a structure of `Option`s; `none` means the field is
absent. -/
structure TranscriptRecord where
  status : Option String := none
  started_at : Option String := none
  analyzed_at : Option String := none
  failed_at : Option String := none
  exit_code : Option Int := none
deriving DecidableEq

/-- The state snapshot `{ version, transcripts }`; the transcripts map is a
function from transcript identity to an optional record. -/
structure SkillState where
  version : Nat
  transcripts : String → Option TranscriptRecord

/-- Embedding of `markTranscriptInProgress(state, transcriptPath)`: the new
entry is built from scratch with status `"in_progress"` and `started_at`. -/
def markTranscriptInProgress (state : SkillState) (transcriptPath : String)
    (now : String) : SkillState :=
  let newEntry : TranscriptRecord :=
    { status := some "in_progress", started_at := some now }
  { state with transcripts := fun p =>
      if p = transcriptPath then some newEntry else state.transcripts p }

/-- Embedding of `markTranscriptCompleted(state, transcriptPath)`: take the
existing entry (or an empty object), drop `started_at`, keep the remaining
fields, and set status `"completed"` and `analyzed_at`. -/
def markTranscriptCompleted (state : SkillState) (transcriptPath : String)
    (now : String) : SkillState :=
  let existingEntry := (state.transcripts transcriptPath).getD {}
  let newEntry : TranscriptRecord :=
    { existingEntry with
        started_at := none
        status := some "completed"
        analyzed_at := some now }
  { state with transcripts := fun p =>
      if p = transcriptPath then some newEntry else state.transcripts p }

/-- Embedding of `markTranscriptFailed(state, transcriptPath, exitCode)`:
take the existing entry (or an empty object), drop `started_at`, keep the
remaining fields, and set status `"failed"`, `failed_at` and `exit_code`. -/
def markTranscriptFailed (state : SkillState) (transcriptPath : String)
    (now : String) (exitCode : Int) : SkillState :=
  let existingEntry := (state.transcripts transcriptPath).getD {}
  let newEntry : TranscriptRecord :=
    { existingEntry with
        started_at := none
        status := some "failed"
        failed_at := some now
        exit_code := some exitCode }
  { state with transcripts := fun p =>
      if p = transcriptPath then some newEntry else state.transcripts p }

-- =============================================================================
-- Usage tracker / retirement (usage-tracker.js)
-- =============================================================================

/-- The slice of skill frontmatter consumed by retirement. -/
structure Frontmatter where
  sessions_since_use : Option Nat := none
deriving DecidableEq

/-- A skill as seen by `retireUnusedSkills`: its name and frontmatter. -/
structure Skill where
  name : String
  frontmatter : Frontmatter
deriving DecidableEq

/-- Embedding of `getSessionsSinceUse(frontmatter)`:
`frontmatter.sessions_since_use || 0` (an absent field reads as 0; a stored
0 also reads as 0). -/
def getSessionsSinceUse (frontmatter : Frontmatter) : Nat :=
  frontmatter.sessions_since_use.getD 0

/-- Embedding of the retirement selection of `retireUnusedSkills`: a skill
is moved to the retired holding area exactly when its sessions-since-use
strictly exceeds `retirementSessions`.  The filesystem move is abstracted
as always succeeding (a failed move is logged and skipped in the source);
the returned list is the names pushed onto `retired`, in scan order. -/
def retireUnusedSkills (skills : List Skill) (retirementSessions : Nat) :
    List String :=
  (skills.filter (fun s =>
    decide (retirementSessions < getSessionsSinceUse s.frontmatter))).map
    Skill.name

-- =============================================================================
-- Process lock (trigger.js: acquireLock)
-- =============================================================================

/-- Error codes surfaced by the filesystem model: `eexist` for an
already-existing directory, `eacces` for any other injected fault. -/
inductive JsErrorCode where
  | eexist
  | eacces
deriving DecidableEq

/-- A small filesystem model for the lock: existing directories, files with
contents, and paths on which the OS reports a non-EEXIST fault. -/
structure JsFs where
  dirs : List String
  files : List (String × String)
  faults : List String
deriving DecidableEq

/-- Embedding of `path.join(a, b)` for the forward-slash platform. -/
def pathJoin (a b : String) : String :=
  a ++ "/" ++ b

/-- Embedding of non-recursive `fs.mkdirSync(p)`: fails with EEXIST when
the directory exists (the atomic create-or-fail), fails with the injected
code on a faulty path, and otherwise creates the directory. -/
def mkdirSync (p : String) (fs : JsFs) : Except JsErrorCode JsFs :=
  if p ∈ fs.faults then .error .eacces
  else if p ∈ fs.dirs then .error .eexist
  else .ok { fs with dirs := p :: fs.dirs }

/-- Embedding of `fs.writeFileSync(p, content)`: fails with the injected
code on a faulty path and otherwise records the file. -/
def writeFileSync (p content : String) (fs : JsFs) : Except JsErrorCode JsFs :=
  if p ∈ fs.faults then .error .eacces
  else .ok { fs with files := (p, content) :: fs.files }

/-- The lock directory path: `path.join(stateDir, 'skill-manager.lock.d')`. -/
def lockDirPath (stateDir : String) : String :=
  pathJoin stateDir "skill-manager.lock.d"

/-- Embedding of `acquireLock(stateDir)` from trigger.js: try to create the
lock directory and write the pid file into it, returning `true`; an EEXIST
failure is caught and returns `false` with the filesystem unchanged; any
other error propagates. -/
def acquireLock (stateDir : String) (pid : Nat) (fs : JsFs) :
    Except JsErrorCode (Bool × JsFs) :=
  let lockDir := lockDirPath stateDir
  match mkdirSync lockDir fs with
  | .error e => if e = .eexist then .ok (false, fs) else .error e
  | .ok fs1 =>
    match writeFileSync (pathJoin lockDir "pid") (Nat.repr pid) fs1 with
    | .error e => if e = .eexist then .ok (false, fs1) else .error e
    | .ok fs2 => .ok (true, fs2)

-- =============================================================================
-- Transcript filter (trigger.js: isSkillManagerSession, isMinimalTranscript,
-- isSubagentSession, filterUnanalyzed)
-- =============================================================================

/-- Read model for transcript files: a map from path to content; `none`
models a file that does not exist or cannot be read. -/
def TranscriptFs : Type := String → Option String

/-- Embedding of `isSkillManagerSession(transcriptPath)`: read the first
2048 bytes (modelled as characters) and look for the skill-manager marker
phrases; an unreadable file yields `false` (fail open). -/
def isSkillManagerSession (fs : TranscriptFs) (transcriptPath : String) : Bool :=
  match fs transcriptPath with
  | none => false
  | some content =>
    let head := String.mk (content.data.take 2048)
    stringContains head "Extract skills from transcript at:" ||
    stringContains head "skill-manager.md" ||
    (stringContains head "Skill Manager" &&
      stringContains head "analyzing a Claude Code conversation transcript")

/-- Number of non-blank lines of a content string:
`content.split('\n').filter(line => line.trim()).length`.  A line is kept
when trimming leaves it nonempty, i.e. it has a non-whitespace character. -/
def nonBlankLineCount (content : String) : Nat :=
  ((splitOnChar '\n' content.data).filter
    (fun line => line.any (fun c => !c.isWhitespace))).length

/-- Embedding of `isMinimalTranscript(transcriptPath, minLines)`: `true`
when the file is readable and has fewer than `minLines` non-blank lines;
an unreadable file yields `false` (fail open). -/
def isMinimalTranscript (fs : TranscriptFs) (transcriptPath : String)
    (minLines : Nat) : Bool :=
  match fs transcriptPath with
  | none => false
  | some content => decide (nonBlankLineCount content < minLines)

/-- Embedding of `path.basename` for the forward-slash platform: the part
after the last separator. -/
def basenameOf (p : String) : String :=
  ((splitOnChar '/' p.data).map (fun cs => String.mk cs)).getLastD ""

/-- Embedding of `isSubagentSession(transcriptPath)`: the file name starts
with `"agent-"`. -/
def isSubagentSession (transcriptPath : String) : Bool :=
  (basenameOf transcriptPath).startsWith "agent-"

/-- The combined candidate test of the `filterUnanalyzed` loop body: not a
key of the state's transcripts map, not a skill-manager session, not a
sub-agent session (when that exclusion is on), and not minimal. -/
def transcriptQualifies (fs : TranscriptFs) (state : SkillState)
    (minLines : Nat) (skipSubagents : Bool) (transcript : String) : Bool :=
  !(state.transcripts transcript).isSome &&
  !isSkillManagerSession fs transcript &&
  !(skipSubagents && isSubagentSession transcript) &&
  !isMinimalTranscript fs transcript minLines

/-- The `filterUnanalyzed` loop: push each qualifying transcript and break
as soon as the accumulated result reaches `limit` (the length test runs
only after a push, as in the source). -/
def filterUnanalyzedGo (fs : TranscriptFs) (state : SkillState) (limit : Nat)
    (minLines : Nat) (skipSubagents : Bool) :
    List String → List String → List String
  | [], result => result
  | transcript :: rest, result =>
    if transcriptQualifies fs state minLines skipSubagents transcript then
      let result2 := result ++ [transcript]
      if limit ≤ result2.length then
        result2
      else
        filterUnanalyzedGo fs state limit minLines skipSubagents rest result2
    else
      filterUnanalyzedGo fs state limit minLines skipSubagents rest result

/-- Embedding of `filterUnanalyzed(transcripts, state, limit, options)` from
trigger.js, with the options object passed as explicit `minLines` and
`skipSubagents` parameters and the file reads against `fs`. -/
def filterUnanalyzed (transcripts : List String) (state : SkillState)
    (limit : Nat) (minLines : Nat) (skipSubagents : Bool)
    (fs : TranscriptFs) : List String :=
  filterUnanalyzedGo fs state limit minLines skipSubagents transcripts []

-- =============================================================================
-- Decimal representation helpers (for reasoning about `Nat.repr` inside
-- generated names and markers)
-- =============================================================================

/-- The big-endian decimal digit characters of `n`, specified through
`Nat.digits`; equal to the character list underlying `Nat.repr n`. -/
def decChars (n : Nat) : List Char :=
  if n = 0 then ['0'] else ((Nat.digits 10 n).reverse).map Nat.digitChar

/-- Decode a digit character back to its value. -/
def charToDigit (c : Char) : Nat :=
  c.toNat - '0'.toNat

-- =============================================================================
-- Helper lemmas
-- =============================================================================

theorem splitOnChar_ne_nil (sep : Char) (cs : List Char) :
    splitOnChar sep cs ≠ [] := by
  cases cs with
  | nil => simp [splitOnChar]
  | cons c rest =>
    simp only [splitOnChar]
    by_cases h : c = sep
    · simp [h]
    · simp only [if_neg h]
      cases hr : splitOnChar sep rest <;> simp

theorem splitTokens_ne_nil (s : String) : splitTokens s ≠ [] := by
  simp only [splitTokens, ne_eq, List.map_eq_nil_iff]
  exact splitOnChar_ne_nil '-' s.data

theorem dedup_toFinset {α : Type} [DecidableEq α] (l : List α) :
    l.dedup.toFinset = l.toFinset := by
  ext x
  simp [List.mem_dedup]

theorem jaccard_as_finsets (a b : String) :
    jaccardSimilarity a b =
      (((splitTokens a).toFinset ∩ (splitTokens b).toFinset).card : ℚ) /
      (((splitTokens a).toFinset ∪ (splitTokens b).toFinset).card : ℚ) := by
  have hinter :
      ((splitTokens a).dedup.filter
        (fun t => t ∈ (splitTokens b).dedup)).length =
      ((splitTokens a).toFinset ∩ (splitTokens b).toFinset).card := by
    rw [← List.toFinset_card_of_nodup
      ((List.nodup_dedup (splitTokens a)).filter _)]
    congr 1
    ext x
    simp [List.mem_filter, List.mem_dedup]
  have hunion :
      (((splitTokens a).dedup ++ (splitTokens b).dedup)).dedup.length =
      ((splitTokens a).toFinset ∪ (splitTokens b).toFinset).card := by
    rw [← List.toFinset_card_of_nodup
      (List.nodup_dedup ((splitTokens a).dedup ++ (splitTokens b).dedup))]
    congr 1
    ext x
    simp [List.mem_dedup]
  simp only [jaccardSimilarity]
  rw [hinter, hunion]

-- =============================================================================
-- Claim theorems
-- =============================================================================

/-- C5. The Jaccard score of two names is the ratio of the size of the
intersection to the size of the union of their hyphen-token sets; in
particular `jaccard("rust-test-mock","rust-test-handler") = 0.5`, for every
name `x` `jaccard(x,x) = 1.0`, and for every pair of names with disjoint
token sets the score is `0.0`. -/
theorem c5_jaccard_spec :
    (∀ a b : String, jaccardSimilarity a b =
        (((splitTokens a).toFinset ∩ (splitTokens b).toFinset).card : ℚ) /
        (((splitTokens a).toFinset ∪ (splitTokens b).toFinset).card : ℚ)) ∧
    jaccardSimilarity "rust-test-mock" "rust-test-handler" = 1 / 2 ∧
    (∀ x : String, jaccardSimilarity x x = 1) ∧
    (∀ a b : String, (∀ t, t ∈ splitTokens a → t ∉ splitTokens b) →
        jaccardSimilarity a b = 0) := by
  refine ⟨jaccard_as_finsets, ?_, ?_, ?_⟩
  · have hinter :
        ((splitTokens "rust-test-mock").dedup.filter
          (fun t => t ∈ (splitTokens "rust-test-handler").dedup)).length = 2 := by
      decide
    have hunion :
        (((splitTokens "rust-test-mock").dedup ++
          (splitTokens "rust-test-handler").dedup)).dedup.length = 4 := by
      decide
    simp only [jaccardSimilarity]
    rw [hinter, hunion]
    norm_num
  · intro x
    rw [jaccard_as_finsets]
    have hne : ((splitTokens x).toFinset.card : ℚ) ≠ 0 := by
      have : (splitTokens x).toFinset.Nonempty := by
        obtain ⟨t, ts, h⟩ :
            ∃ t ts, splitTokens x = t :: ts := by
          cases h : splitTokens x with
          | nil => exact absurd h (splitTokens_ne_nil x)
          | cons t ts => exact ⟨t, ts, rfl⟩
        exact ⟨t, by simp [h]⟩
      have := Finset.card_pos.mpr this
      exact_mod_cast Nat.pos_iff_ne_zero.mp this
    rw [Finset.inter_self, Finset.union_self, div_self hne]
  · intro a b hdisj
    rw [jaccard_as_finsets]
    have : (splitTokens a).toFinset ∩ (splitTokens b).toFinset = ∅ := by
      ext t
      simp only [Finset.mem_inter, List.mem_toFinset, Finset.not_mem_empty,
        iff_false, not_and]
      exact hdisj t
    rw [this]
    simp

/-- Witness for C5: the disjoint and identical cases evaluated at concrete
names through the theorem. -/
theorem c5_jaccard_spec_witness :
    jaccardSimilarity "alpha-beta" "gamma-delta" = 0 ∧
    jaccardSimilarity "rust-test-mock" "rust-test-mock" = 1 :=
  ⟨c5_jaccard_spec.2.2.2 "alpha-beta" "gamma-delta" (by decide),
   c5_jaccard_spec.2.2.1 "rust-test-mock"⟩

/-- C4. Every element of the result of findStrict (jaccard >= 0.30 AND
prefix >= 3) is also an element of the result of findWide (jaccard >= 0.40
OR (jaccard >= 0.30 AND prefix >= 3)) on the same inputs. -/
theorem c4_strict_subset_wide (name : String) (candidates : List String)
    (m : SimilarityMatch) (h : m ∈ findSimilarSkillsStrict name candidates) :
    m ∈ findSimilarSkillsWide name candidates := by
  simp only [findSimilarSkillsStrict, findSimilarSkillsWide,
    List.mem_mergeSort, List.mem_filterMap] at h ⊢
  obtain ⟨cand, hcand, hsome⟩ := h
  refine ⟨cand, hcand, ?_⟩
  by_cases hcond : jaccardSimilarity name cand ≥ 0.30 ∧
      prefixTokenCount name cand ≥ 3
  · rw [if_pos hcond] at hsome
    rw [if_pos (Or.inr hcond)]
    exact hsome
  · rw [if_neg hcond] at hsome
    exact absurd hsome (by simp)

/-- Witness for C4: a concrete strict match that the theorem places in the
wide result as well. -/
theorem c4_strict_subset_wide_witness :
    (⟨"a-b-c", 1, 3⟩ : SimilarityMatch) ∈
      findSimilarSkillsStrict "a-b-c" ["a-b-c"] ∧
    (⟨"a-b-c", 1, 3⟩ : SimilarityMatch) ∈
      findSimilarSkillsWide "a-b-c" ["a-b-c"] := by
  have hj : jaccardSimilarity "a-b-c" "a-b-c" = 1 := by
    have hinter :
        ((splitTokens "a-b-c").dedup.filter
          (fun t => t ∈ (splitTokens "a-b-c").dedup)).length = 3 := by decide
    have hunion :
        (((splitTokens "a-b-c").dedup ++
          (splitTokens "a-b-c").dedup)).dedup.length = 3 := by decide
    simp only [jaccardSimilarity]
    rw [hinter, hunion]
    norm_num
  have hmem : (⟨"a-b-c", 1, 3⟩ : SimilarityMatch) ∈
      findSimilarSkillsStrict "a-b-c" ["a-b-c"] := by
    simp only [findSimilarSkillsStrict, List.mem_mergeSort, List.mem_filterMap]
    refine ⟨"a-b-c", by simp, ?_⟩
    have hp : prefixTokenCount "a-b-c" "a-b-c" = 3 := by decide
    rw [if_pos ⟨by rw [hj]; norm_num, by rw [hp]⟩, hj, hp]
  exact ⟨hmem, c4_strict_subset_wide "a-b-c" ["a-b-c"] _ hmem⟩

/-- C6. Retirement uses a strict inequality on the configured threshold: an
active skill is retired exactly when its sessions-since-use strictly
exceeds the threshold; a skill at exactly the threshold is not retired,
while threshold + 1 is retired. -/
theorem c6_retirement_strict :
    (∀ (skills : List Skill) (threshold : Nat) (n : String),
        n ∈ retireUnusedSkills skills threshold ↔
          ∃ s ∈ skills, s.name = n ∧
            threshold < getSessionsSinceUse s.frontmatter) ∧
    (∀ (threshold : Nat) (name : String),
        retireUnusedSkills [⟨name, ⟨some threshold⟩⟩] threshold = [] ∧
        retireUnusedSkills [⟨name, ⟨some (threshold + 1)⟩⟩] threshold =
          [name]) := by
  constructor
  · intro skills threshold n
    simp only [retireUnusedSkills, List.mem_map, List.mem_filter,
      decide_eq_true_eq]
    constructor
    · rintro ⟨s, ⟨hs, hlt⟩, hn⟩
      exact ⟨s, hs, hn, hlt⟩
    · rintro ⟨s, hs, hn, hlt⟩
      exact ⟨s, ⟨hs, hlt⟩, hn⟩
  · intro threshold name
    constructor
    · simp [retireUnusedSkills, getSessionsSinceUse]
    · simp [retireUnusedSkills, getSessionsSinceUse]

/-- C10. The candidate filter fails open on unreadable files: when a
transcript's content cannot be read, both the self-referential-session
check and the minimum-length check return false, so a read error never
excludes a transcript at these checks. -/
theorem c10_fail_open (fs : TranscriptFs) (p : String) (minLines : Nat)
    (h : fs p = none) :
    isSkillManagerSession fs p = false ∧
    isMinimalTranscript fs p minLines = false := by
  constructor
  · simp [isSkillManagerSession, h]
  · simp [isMinimalTranscript, h]

/-- Witness for C10: both checks evaluated on an unreadable path. -/
theorem c10_fail_open_witness :
    isSkillManagerSession (fun _ => none) "t" = false ∧
    isMinimalTranscript (fun _ => none) "t" 10 = false :=
  c10_fail_open (fun _ => none) "t" 10 rfl

/-- C7. Lock acquisition is create-or-fail: acquire returns true exactly
when it newly creates the lock directory (and then also writes the process
id into the pid file inside it), returns false without error exactly when
the lock directory already exists, and any other filesystem failure
propagates as an error. -/
theorem c7_lock_acquire (stateDir : String) (pid : Nat) (fs : JsFs) :
    (lockDirPath stateDir ∉ fs.faults →
      pathJoin (lockDirPath stateDir) "pid" ∉ fs.faults →
      lockDirPath stateDir ∉ fs.dirs →
      acquireLock stateDir pid fs =
        .ok (true,
          ⟨lockDirPath stateDir :: fs.dirs,
           (pathJoin (lockDirPath stateDir) "pid", Nat.repr pid) :: fs.files,
           fs.faults⟩)) ∧
    (lockDirPath stateDir ∉ fs.faults →
      lockDirPath stateDir ∈ fs.dirs →
      acquireLock stateDir pid fs = .ok (false, fs)) ∧
    (lockDirPath stateDir ∈ fs.faults →
      acquireLock stateDir pid fs = .error .eacces) ∧
    (lockDirPath stateDir ∉ fs.faults →
      lockDirPath stateDir ∉ fs.dirs →
      pathJoin (lockDirPath stateDir) "pid" ∈ fs.faults →
      acquireLock stateDir pid fs = .error .eacces) := by
  refine ⟨?_, ?_, ?_, ?_⟩
  · intro h1 h2 h3
    simp [acquireLock, mkdirSync, writeFileSync, h1, h2, h3]
  · intro h1 h2
    simp [acquireLock, mkdirSync, h1, h2]
  · intro h1
    simp [acquireLock, mkdirSync, h1]
  · intro h1 h2 h3
    simp [acquireLock, mkdirSync, writeFileSync, h1, h2, h3]

/-- Witness for C7: a fresh state directory acquires the lock and writes
the pid file; an existing lock directory yields false; a faulted path
propagates the error. -/
theorem c7_lock_acquire_witness :
    acquireLock "/sd" 7 ⟨[], [], []⟩ =
      .ok (true,
        ⟨[lockDirPath "/sd"],
         [(pathJoin (lockDirPath "/sd") "pid", Nat.repr 7)], []⟩) ∧
    acquireLock "/sd" 7 ⟨[lockDirPath "/sd"], [], []⟩ =
      .ok (false, ⟨[lockDirPath "/sd"], [], []⟩) ∧
    acquireLock "/sd" 7 ⟨[], [], [lockDirPath "/sd"]⟩ = .error .eacces :=
  ⟨(c7_lock_acquire "/sd" 7 ⟨[], [], []⟩).1 (by simp) (by simp) (by simp),
   (c7_lock_acquire "/sd" 7 ⟨[lockDirPath "/sd"], [], []⟩).2.1 (by simp)
     (by simp),
   (c7_lock_acquire "/sd" 7 ⟨[], [], [lockDirPath "/sd"]⟩).2.2.1 (by simp)⟩

/-- C1 counterexample. The claim quantifies over every truncate parameter
K, but at K = 0 a one-line payload (L = 1 > 0 = 2K) is truncated to 4
lines, not K + 3 + K = 3: JS `lines.slice(0, 0)` is empty while
`lines.slice(-0)` is the whole array, so the output is the blank line, the
marker, a blank line, and all original lines. -/
theorem c1_counterexample :
    truncateText ["a"] 0 = ["", "... [truncated 1 lines] ...", "", "a"] ∧
    (truncateText ["a"] 0).length ≠ 0 + 3 + 0 := by
  constructor
  · decide
  · decide

/-- C1 (amended: truncate parameter K ≥ 1). For a payload of L lines and a
truncate parameter K ≥ 1: if L > 2K the truncation has exactly K + 3 + K
lines — the first K lines, then a blank line, a marker stating that L - 2K
lines were truncated, a blank line, and the last K lines; if L ≤ 2K the
payload is returned unchanged. -/
theorem c1_truncate_lines (lines : List String) (K : Nat) (hK : 1 ≤ K) :
    (2 * K < lines.length →
      (truncateText lines K).length = K + 3 + K ∧
      (truncateText lines K).take K = lines.take K ∧
      (truncateText lines K).drop (K + 3) = lines.drop (lines.length - K) ∧
      ((truncateText lines K).drop K).take 3 =
        ["", "... [truncated " ++ Nat.repr (lines.length - 2 * K) ++
          " lines] ...", ""]) ∧
    (lines.length ≤ 2 * K → truncateText lines K = lines) := by
  have hm : K * 2 = 2 * K := Nat.mul_comm K 2
  constructor
  · intro hL
    have hcond : ¬ (lines.length ≤ K * 2) := by omega
    have hKlen : K ≤ lines.length := by omega
    have hK0 : K ≠ 0 := by omega
    have htake : (lines.take K).length = K := by
      simp [List.length_take]
      omega
    have hmid : ((lines.take K) ++
        ["", "... [truncated " ++ Nat.repr (lines.length - K * 2) ++
          " lines] ...", ""]).length = K + 3 := by
      simp [htake]
    have hexp : truncateText lines K =
        lines.take K ++ "" ::
          ("... [truncated " ++ Nat.repr (lines.length - K * 2) ++
            " lines] ...") :: "" :: lines.drop (lines.length - K) := by
      simp only [truncateText, if_neg hcond, sliceFromEnd, if_neg hK0]
    rw [hexp, hm]
    refine ⟨?_, ?_, ?_, ?_⟩
    · simp [List.length_append, List.length_drop, htake]
      omega
    · rw [List.take_left' htake]
    · have hassoc : lines.take K ++ "" ::
          ("... [truncated " ++ Nat.repr (lines.length - 2 * K) ++
            " lines] ...") :: "" :: lines.drop (lines.length - K) =
          (lines.take K ++
            ["", "... [truncated " ++ Nat.repr (lines.length - 2 * K) ++
              " lines] ...", ""]) ++ lines.drop (lines.length - K) := by
        simp
      rw [hassoc, List.drop_left' (by simp [htake])]
    · rw [List.drop_left' htake]
      rfl
  · intro hL
    simp only [truncateText, if_pos (by omega : lines.length ≤ K * 2)]

/-- Witness for C1: a 3-line payload with K = 1 truncates to 1 + 3 + 1
lines with the first and last lines preserved around the marker; a 1-line
payload with K = 1 is unchanged. -/
theorem c1_truncate_lines_witness :
    (truncateText ["a", "b", "c"] 1).length = 1 + 3 + 1 ∧
    (truncateText ["a", "b", "c"] 1).take 1 = ["a"] ∧
    truncateText ["a"] 1 = ["a"] :=
  ⟨((c1_truncate_lines ["a", "b", "c"] 1 (by decide)).1 (by decide)).1,
   ((c1_truncate_lines ["a", "b", "c"] 1 (by decide)).1 (by decide)).2.1,
   (c1_truncate_lines ["a"] 1 (by decide)).2 (by decide)⟩

/-- C2 counterexample. The claim asserts a character-based truncation
(threshold 50,000) for payloads of few lines; the code has no such path:
a single-line payload of 50,001 characters is returned entirely unchanged
by the truncation (1 line ≤ 2K for the default K = 30), with no 25,000
character prefix/suffix kept and no elision marker. -/
theorem c2_counterexample :
    (String.mk (List.replicate 50001 'a')).length = 50001 ∧
    truncateText [String.mk (List.replicate 50001 'a')] 30 =
      [String.mk (List.replicate 50001 'a')] := by
  constructor
  · show (List.replicate 50001 'a').length = 50001
    rw [List.length_replicate]
  · simp only [truncateText]
    rw [if_pos (by norm_num :
      ([String.mk (List.replicate 50001 'a')] : List String).length ≤ 30 * 2)]

/-- C2 (amended). Payloads whose line count does not exceed 2K are returned
unchanged by the truncation regardless of their character count: the
character-threshold path described by the claim does not exist in the
code; in particular every single-line payload is unchanged for K ≥ 1. -/
theorem c2_no_char_truncation :
    (∀ (lines : List String) (K : Nat), lines.length ≤ 2 * K →
        truncateText lines K = lines) ∧
    (∀ (s : String) (K : Nat), 1 ≤ K → truncateText [s] K = [s]) := by
  have h1 : ∀ (lines : List String) (K : Nat), lines.length ≤ 2 * K →
      truncateText lines K = lines := by
    intro lines K hL
    simp only [truncateText, if_pos (by omega : lines.length ≤ K * 2)]
  exact ⟨h1, fun s K hK => h1 [s] K (by simp; omega)⟩

/-- Witness for C2: a 50,001-character single-line payload is unchanged at
K = 25000 (the K at which the claim's threshold/2 = 25,000 would sit). -/
theorem c2_no_char_truncation_witness :
    truncateText [String.mk (List.replicate 50001 'a')] 25000 =
      [String.mk (List.replicate 50001 'a')] :=
  c2_no_char_truncation.2 (String.mk (List.replicate 50001 'a')) 25000
    (by decide)

/-- C3 counterexample. The claim quantifies over every state snapshot, but
markTranscriptCompleted only removes started_at from the existing entry:
applied to a snapshot whose record for the identity is a failed record, the
resulting completed record still carries the stale failed_at and exit_code
fields, which the claim requires to be absent. -/
theorem c3_counterexample :
    (markTranscriptCompleted
        ⟨1, fun p => if p = "t" then
            some ⟨some "failed", none, none, some "T1", some 2⟩
          else none⟩
        "t" "T2").transcripts "t" =
      some ⟨some "completed", none, some "T2", some "T1", some 2⟩ := by
  decide

/-- C3 (amended: snapshots satisfying the state-store invariant). For every
snapshot in which the identity's record, if present, carries no field of a
prior completed or failed status (analyzed_at, failed_at and exit_code
absent — as markTranscriptInProgress establishes), the three pure
transitions yield a record carrying only the fields relevant to the new
status (in_progress: started_at; completed: analyzed_at with started_at,
failed_at, exit_code absent; failed: failed_at and exit_code with
started_at and analyzed_at absent), and the version and all other
identities' records are unchanged (the input snapshot itself is a pure
value and is never mutated). -/
theorem c3_mark_transitions (state : SkillState) (t now : String)
    (exitCode : Int)
    (h : ∀ r, state.transcripts t = some r →
        r.analyzed_at = none ∧ r.failed_at = none ∧ r.exit_code = none) :
    (markTranscriptInProgress state t now).transcripts t =
      some ⟨some "in_progress", some now, none, none, none⟩ ∧
    (markTranscriptCompleted state t now).transcripts t =
      some ⟨some "completed", none, some now, none, none⟩ ∧
    (markTranscriptFailed state t now exitCode).transcripts t =
      some ⟨some "failed", none, none, some now, some exitCode⟩ ∧
    (∀ p, p ≠ t →
      (markTranscriptInProgress state t now).transcripts p =
        state.transcripts p ∧
      (markTranscriptCompleted state t now).transcripts p =
        state.transcripts p ∧
      (markTranscriptFailed state t now exitCode).transcripts p =
        state.transcripts p) ∧
    (markTranscriptInProgress state t now).version = state.version ∧
    (markTranscriptCompleted state t now).version = state.version ∧
    (markTranscriptFailed state t now exitCode).version = state.version := by
  refine ⟨?_, ?_, ?_, ?_, rfl, rfl, rfl⟩
  · simp [markTranscriptInProgress]
  · cases hcase : state.transcripts t with
    | none => simp [markTranscriptCompleted, hcase]
    | some r =>
      obtain ⟨ha, hf, he⟩ := h r hcase
      cases r
      simp_all [markTranscriptCompleted, hcase]
  · cases hcase : state.transcripts t with
    | none => simp [markTranscriptFailed, hcase]
    | some r =>
      obtain ⟨ha, hf, he⟩ := h r hcase
      cases r
      simp_all [markTranscriptFailed, hcase]
  · intro p hp
    refine ⟨?_, ?_, ?_⟩ <;>
      simp [markTranscriptInProgress, markTranscriptCompleted,
        markTranscriptFailed, hp]

/-- Witness for C3: the three transitions evaluated on an empty snapshot,
whose (absent) record trivially satisfies the invariant hypothesis. -/
theorem c3_mark_transitions_witness :
    (markTranscriptInProgress ⟨1, fun _ => none⟩ "t" "T0").transcripts "t" =
      some ⟨some "in_progress", some "T0", none, none, none⟩ ∧
    (markTranscriptCompleted ⟨1, fun _ => none⟩ "t" "T1").transcripts "t" =
      some ⟨some "completed", none, some "T1", none, none⟩ ∧
    (markTranscriptFailed ⟨1, fun _ => none⟩ "t" "T2" 3).transcripts "t" =
      some ⟨some "failed", none, none, some "T2", some 3⟩ ∧
    (markTranscriptCompleted ⟨1, fun _ => none⟩ "t" "T1").transcripts "u" =
      none :=
  ⟨(c3_mark_transitions ⟨1, fun _ => none⟩ "t" "T0" 3
      (fun r hr => nomatch hr)).1,
   (c3_mark_transitions ⟨1, fun _ => none⟩ "t" "T1" 3
      (fun r hr => nomatch hr)).2.1,
   (c3_mark_transitions ⟨1, fun _ => none⟩ "t" "T2" 3
      (fun r hr => nomatch hr)).2.2.1,
   ((c3_mark_transitions ⟨1, fun _ => none⟩ "t" "T1" 3
      (fun r hr => nomatch hr)).2.2.2.1 "u" (by decide)).2.1⟩

theorem filterUnanalyzedGo_eq (fs : TranscriptFs) (state : SkillState)
    (limit minLines : Nat) (skipSubagents : Bool) (l : List String)
    (acc : List String) (h : acc.length < limit) :
    filterUnanalyzedGo fs state limit minLines skipSubagents l acc =
      acc ++ (l.filter
        (transcriptQualifies fs state minLines skipSubagents)).take
        (limit - acc.length) := by
  induction l generalizing acc with
  | nil => simp [filterUnanalyzedGo]
  | cons t rest ih =>
    simp only [filterUnanalyzedGo]
    by_cases hq : transcriptQualifies fs state minLines skipSubagents t
    · rw [if_pos hq]
      simp only [List.filter_cons_of_pos hq]
      by_cases hstop : limit ≤ (acc ++ [t]).length
      · rw [if_pos hstop]
        have hlim : limit - acc.length = 1 := by
          simp at hstop
          omega
        rw [hlim]
        simp
      · rw [if_neg hstop]
        rw [ih (acc ++ [t]) (by simp at hstop ⊢; omega)]
        have harith : limit - (acc ++ [t]).length =
            (limit - acc.length) - 1 := by
          simp
          omega
        rw [harith]
        have htk : (limit - acc.length) = ((limit - acc.length) - 1) + 1 := by
          omega
        rw [htk, List.take_succ_cons]
        simp
    · rw [if_neg hq]
      rw [ih acc h]
      rw [List.filter_cons_of_neg hq]

/-- C8 counterexample. The claim quantifies over every limit, but at
limit = 0 the loop pushes the first qualifying candidate before testing
the bound, so it returns 1 > 0 candidates. -/
theorem c8_counterexample :
    filterUnanalyzed ["t"] ⟨1, fun _ => none⟩ 0 10 true
      (fun p => if p = "t" then
        some "1\n2\n3\n4\n5\n6\n7\n8\n9\n10" else none) = ["t"] := by
  decide

/-- C8 (amended: limit >= 1). For every discovered transcript list, state
snapshot, limit >= 1 and filter options, the filter returns the first
`limit` qualifying candidates in input order (so at most `limit`), each of
which is not a key of the state's transcripts map, is not a
skill-manager session, is not a sub-agent session when that exclusion is
enabled, passes the minimal-transcript check, and — whenever its content
is readable — has at least `minLines` non-blank lines. -/
theorem c8_filter_unanalyzed (transcripts : List String)
    (state : SkillState) (limit minLines : Nat) (skipSubagents : Bool)
    (fs : TranscriptFs) (hlim : 1 ≤ limit) :
    filterUnanalyzed transcripts state limit minLines skipSubagents fs =
      (transcripts.filter
        (transcriptQualifies fs state minLines skipSubagents)).take limit ∧
    (filterUnanalyzed transcripts state limit minLines skipSubagents
      fs).length ≤ limit ∧
    (∀ t ∈ filterUnanalyzed transcripts state limit minLines skipSubagents
        fs,
      state.transcripts t = none ∧
      isSkillManagerSession fs t = false ∧
      (skipSubagents = true → isSubagentSession t = false) ∧
      isMinimalTranscript fs t minLines = false ∧
      (∀ c, fs t = some c → minLines ≤ nonBlankLineCount c)) := by
  have hmain : filterUnanalyzed transcripts state limit minLines
      skipSubagents fs =
      (transcripts.filter
        (transcriptQualifies fs state minLines skipSubagents)).take limit := by
    rw [filterUnanalyzed,
      filterUnanalyzedGo_eq fs state limit minLines skipSubagents
        transcripts [] (by simpa using hlim)]
    simp
  refine ⟨hmain, ?_, ?_⟩
  · rw [hmain]
    exact List.length_take_le limit _
  · intro t ht
    rw [hmain] at ht
    have hf := List.mem_of_mem_take ht
    have hq := (List.mem_filter.mp hf).2
    simp only [transcriptQualifies, Bool.and_eq_true, Bool.not_eq_true',
      Bool.and_eq_false_iff] at hq
    obtain ⟨⟨⟨hseen, hskill⟩, hsub⟩, hmin⟩ := hq
    refine ⟨Option.not_isSome_iff_eq_none.mp (by simp [hseen]), hskill,
      ?_, hmin, ?_⟩
    · intro hskip
      rcases hsub with h | h
      · rw [hskip] at h
        exact absurd h (by simp)
      · exact h
    · intro c hc
      rw [isMinimalTranscript, hc] at hmin
      simpa using hmin

/-- Witness for C8: a single readable, qualifying transcript at
limit = 1 yields a result of length at most 1. -/
theorem c8_filter_unanalyzed_witness :
    (filterUnanalyzed ["t"] ⟨1, fun _ => none⟩ 1 1 true
      (fun p => if p = "t" then some "x" else none)).length ≤ 1 :=
  (c8_filter_unanalyzed ["t"] ⟨1, fun _ => none⟩ 1 1 true
    (fun p => if p = "t" then some "x" else none) (by decide)).2.1

theorem decChars_lt10 (n : Nat) (h : n < 10) :
    decChars n = [Nat.digitChar n] := by
  rcases Nat.eq_zero_or_pos n with h0 | h0
  · subst h0
    decide
  · rw [decChars, if_neg (by omega)]
    rw [Nat.digits_def' (by norm_num : (1 : ℕ) < 10) h0]
    rw [Nat.div_eq_of_lt h]
    simp [Nat.mod_eq_of_lt h]

theorem decChars_step (n : Nat) (h : 10 ≤ n) :
    decChars n = decChars (n / 10) ++ [Nat.digitChar (n % 10)] := by
  have hq0 : n / 10 ≠ 0 := by
    have : 1 ≤ n / 10 := (Nat.le_div_iff_mul_le (by norm_num)).mpr (by omega)
    omega
  rw [decChars, if_neg (by omega : ¬ n = 0),
    Nat.digits_def' (by norm_num : (1 : ℕ) < 10) (by omega : 0 < n)]
  rw [decChars, if_neg hq0]
  simp

theorem toDigitsCore_eq_decChars : ∀ (fuel n : Nat) (ds : List Char),
    n < fuel → Nat.toDigitsCore 10 fuel n ds = decChars n ++ ds := by
  intro fuel
  induction fuel with
  | zero => intro n ds h; omega
  | succ f ih =>
    intro n ds h
    simp only [Nat.toDigitsCore]
    by_cases hq : n / 10 = 0
    · have hn : n < 10 := by
        rcases Nat.lt_or_ge n 10 with h10 | h10
        · exact h10
        · exact absurd hq (by
            have : 1 ≤ n / 10 :=
              (Nat.le_div_iff_mul_le (by norm_num)).mpr (by omega)
            omega)
      rw [if_pos hq, decChars_lt10 n hn, Nat.mod_eq_of_lt hn]
      simp
    · have h10 : 10 ≤ n := by
        rcases Nat.lt_or_ge n 10 with h10 | h10
        · exact absurd (Nat.div_eq_of_lt h10) hq
        · exact h10
      have hfl : n / 10 < f := by
        have h1 : n / 10 < n := Nat.div_lt_self (by omega) (by norm_num)
        omega
      rw [if_neg hq, ih (n / 10) (Nat.digitChar (n % 10) :: ds) hfl,
        decChars_step n h10]
      simp

theorem repr_data_eq_decChars (n : Nat) : (Nat.repr n).data = decChars n := by
  show (Nat.toDigits 10 n).asString.data = decChars n
  rw [Nat.toDigits,
    toDigitsCore_eq_decChars (n + 1) n [] (Nat.lt_succ_self n)]
  simp [List.asString]

theorem mem_decChars_isDigitChar (n : Nat) (c : Char) (h : c ∈ decChars n) :
    ∃ d, d < 10 ∧ c = Nat.digitChar d := by
  rw [decChars] at h
  by_cases h0 : n = 0
  · rw [if_pos h0] at h
    simp at h
    exact ⟨0, by omega, by rw [h]; decide⟩
  · rw [if_neg h0] at h
    simp only [List.mem_map, List.mem_reverse] at h
    obtain ⟨d, hd, hc⟩ := h
    exact ⟨d, Nat.digits_lt_base (by norm_num) hd, hc.symm⟩

theorem dash_not_mem_decChars (n : Nat) : '-' ∉ decChars n := by
  intro h
  obtain ⟨d, hd, hc⟩ := mem_decChars_isDigitChar n '-' h
  interval_cases d <;> exact absurd hc (by decide)

theorem charToDigit_digitChar (d : Nat) (h : d < 10) :
    charToDigit (Nat.digitChar d) = d := by
  interval_cases d <;> decide

theorem ofDigits_decChars (n : Nat) :
    Nat.ofDigits 10 (((decChars n).map charToDigit).reverse) = n := by
  by_cases h0 : n = 0
  · subst h0
    decide
  · rw [decChars, if_neg h0, List.map_map]
    have hfun : ∀ d ∈ (Nat.digits 10 n).reverse,
        (charToDigit ∘ Nat.digitChar) d = d := by
      intro d hd
      exact charToDigit_digitChar d
        (Nat.digits_lt_base (by norm_num) (List.mem_reverse.mp hd))
    rw [List.map_congr_left hfun]
    simp only [List.map_id', List.reverse_reverse]
    exact Nat.ofDigits_digits 10 n

theorem decChars_inj {n m : Nat} (h : decChars n = decChars m) : n = m := by
  have h1 := ofDigits_decChars n
  have h2 := ofDigits_decChars m
  rw [h] at h1
  exact h1.symm.trans h2

theorem append_dash_inj : ∀ (A1 : List Char) (A2 r1 r2 : List Char),
    '-' ∉ A1 → '-' ∉ A2 → A1 ++ '-' :: r1 = A2 ++ '-' :: r2 →
    A1 = A2 ∧ r1 = r2 := by
  intro A1
  induction A1 with
  | nil =>
    intro A2 r1 r2 h1 h2 h
    cases A2 with
    | nil => simpa using h
    | cons b bs =>
      simp only [List.nil_append, List.cons_append, List.cons.injEq] at h
      exact absurd (by rw [← h.1]; exact List.mem_cons_self '-' bs) h2
  | cons a as ih =>
    intro A2 r1 r2 h1 h2 h
    cases A2 with
    | nil =>
      simp only [List.cons_append, List.nil_append, List.cons.injEq] at h
      exact absurd (by rw [h.1]; exact List.mem_cons_self '-' as) h1
    | cons b bs =>
      simp only [List.cons_append, List.cons.injEq] at h
      obtain ⟨hab, htail⟩ := h
      have h1' : '-' ∉ as := fun hm => h1 (List.mem_cons_of_mem a hm)
      have h2' : '-' ∉ bs := fun hm => h2 (List.mem_cons_of_mem b hm)
      obtain ⟨hA, hr⟩ := ih bs r1 r2 h1' h2' htail
      exact ⟨by rw [hab, hA], hr⟩

/-- C9 counterexample. The temp-file name interpolates only the
millisecond clock and the process id: two invocations from the same
process within the same millisecond receive the identical name (nothing
random distinguishes them), while invocations a millisecond apart differ.
The claimed random component and high-resolution time do not exist in the
code, so names are not collision-free under concurrent invocations within
one process. -/
theorem c9_counterexample :
    preprocessedTmpName 1700000000000 1234 =
      preprocessedTmpName 1700000000000 1234 ∧
    preprocessedTmpName 1700000000000 1234 ≠
      preprocessedTmpName 1700000000001 1234 := by
  exact ⟨rfl, by decide⟩

/-- C9 (amended). The preprocessor writes its output to a temporary file
whose name combines the millisecond timestamp and the process id (and no
random component): two invocations receive the same name only when both
their millisecond timestamps and their process ids coincide, so names are
collision-free across concurrent invocations from distinct processes, but
not within one process in one millisecond. -/
theorem c9_tmp_name (t1 p1 t2 p2 : Nat)
    (h : preprocessedTmpName t1 p1 = preprocessedTmpName t2 p2) :
    t1 = t2 ∧ p1 = p2 := by
  have hd := congrArg String.data h
  simp only [preprocessedTmpName, String.data_append, repr_data_eq_decChars,
    (show ("-" : String).data = ['-'] from rfl), List.append_assoc,
    List.singleton_append] at hd
  have hd' := List.append_cancel_left hd
  obtain ⟨hA, hr⟩ := append_dash_inj (decChars t1) (decChars t2)
    (decChars p1 ++ ".jsonl".data) (decChars p2 ++ ".jsonl".data)
    (dash_not_mem_decChars t1) (dash_not_mem_decChars t2) hd'
  exact ⟨decChars_inj hA, decChars_inj (List.append_cancel_right hr)⟩

/-- Witness for C9: two equal concrete names force equal timestamp and
pid through the theorem. -/
theorem c9_tmp_name_witness :
    (1700000000000 : Nat) = 1700000000000 ∧ (42 : Nat) = 42 :=
  c9_tmp_name 1700000000000 42 1700000000000 42 rfl

